import Mathlib

/-!
Verification development for the document-analysis caching and text-chunking
core of the Proofread English Paper system.

The Lean definitions below are shallow embeddings of the Python source:

* `app/services/shared/text_utils.py` (string cleaning and validation),
* `app/services/knowledge/config/chunking_config.py` (constants, section regex),
* `app/services/knowledge/core/chunking_engine.py` (section / splitter chunking),
* `app/services/knowledge/core/nlp_chunking_engine.py` (sentence chunking),
* `app/services/knowledge/utils/enhanced_cache_system.py` (two-level cache),
* `app/services/knowledge/utils/pdf_page_splitter.py` (page decomposition),
* `libs/azure_client.py` (the enhanced-cache analysis orchestrator).

External collaborators (hashlib digests, the JSON serializer length, the PDF
parser, the document-analysis service, the LangChain splitter) are modelled as
explicit function parameters, since their internals are outside the repository.
Timestamps are modelled as integers ordered like the ISO strings the code
compares; filesystem contents and the SQLite metadata table are modelled as
association lists keyed the way the code keys them.
-/

namespace ProofreadCore

/-- Decidable equality for `Except`, needed to evaluate the fallible
operations at concrete inputs. -/
instance {ε α : Type} [DecidableEq ε] [DecidableEq α] : DecidableEq (Except ε α) :=
  fun x y =>
    match x, y with
    | .ok a, .ok b =>
      if h : a = b then .isTrue (by rw [h]) else .isFalse (by simp [h])
    | .error a, .error b =>
      if h : a = b then .isTrue (by rw [h]) else .isFalse (by simp [h])
    | .ok _, .error _ => .isFalse (by simp)
    | .error _, .ok _ => .isFalse (by simp)

/-! ## Python string helpers (text_utils.py and str builtins) -/

/-- The opening brace character, kept as a named constant. -/
def lbrace : Char := Char.ofNat 123

/-- The closing brace character, kept as a named constant. -/
def rbrace : Char := Char.ofNat 125

/-- Python `str.isspace` / regex `\s` membership for the ASCII whitespace
characters (space, tab, newline, carriage return, vertical tab, form feed).
The sources only ever strip or collapse ASCII whitespace. -/
def isPySpace (c : Char) : Bool :=
  c = ' ' || c = '\t' || c = '\n' || c = '\r' || c = Char.ofNat 11 || c = Char.ofNat 12

/-- Remove trailing whitespace, the right half of Python `str.strip()`. -/
def dropTrailing : List Char → List Char
  | [] => []
  | c :: t =>
    if (dropTrailing t).isEmpty && isPySpace c then [] else c :: dropTrailing t

/-- Python `str.strip()` on the character list of a string. -/
def pyStrip (l : List Char) : List Char :=
  dropTrailing (l.dropWhile isPySpace)

/-- Python `str.strip()`. -/
def pyStripStr (s : String) : String := ⟨pyStrip s.data⟩

/-- The property that a character list contains a non-whitespace character. -/
def HasNS (l : List Char) : Prop := ∃ c ∈ l, isPySpace c = false

instance (l : List Char) : Decidable (HasNS l) := by
  unfold HasNS; infer_instance

/-! ## clean_chunk (text_utils.py)

`clean_chunk` strips the chunk and then performs
`re.sub(r'\n\s*\n\s*\n+', '\n\n', cleaned)`.  By backtracking-greedy regex
semantics this pattern matches, inside each maximal whitespace run that
contains at least three newlines, the span from the first newline of the run
through its last newline, and replaces it by exactly two newlines.  The
collapse function below implements exactly that. -/

/-- Index of the last occurrence of a newline, scanning with a running index
and a best-so-far accumulator. -/
def lastNLAux : List Char → Nat → Nat → Nat
  | [], _, best => best
  | c :: t, i, best => lastNLAux t (i + 1) (if c = '\n' then i else best)

/-- Index of the last newline of a list (0 when there is none). -/
def lastNLIdx (l : List Char) : Nat := lastNLAux l 0 0

/-- One fuelled pass of the `re.sub(r'\n\s*\n\s*\n+', '\n\n', _)` collapse. -/
def collapseAux : Nat → List Char → List Char
  | 0, _ => []
  | _ + 1, [] => []
  | fuel + 1, c :: rest =>
    if c = '\n' then
      let ws := (c :: rest).takeWhile isPySpace
      if 3 ≤ ws.count '\n' then
        '\n' :: '\n' :: collapseAux fuel ((c :: rest).drop (lastNLIdx ws + 1))
      else
        c :: collapseAux fuel rest
    else
      c :: collapseAux fuel rest

/-- Strip-and-collapse on character lists. -/
def cleanList (l : List Char) : List Char :=
  collapseAux (pyStrip l).length (pyStrip l)

/-- `clean_chunk` from `text_utils.py`: empty input maps to the empty string,
otherwise strip then collapse triple blank lines. -/
def clean_chunk (s : String) : String :=
  if s.data = [] then "" else ⟨cleanList s.data⟩

/-! ## validate_text_length (text_utils.py) -/

/-- The classified error kind raised by the chunking engines. -/
structure ChunkingError where
  msg : String
deriving DecidableEq

/-- `validate_text_length` from `text_utils.py`: rejects empty or
whitespace-only text, then checks the stripped length against the bounds. -/
def validate_text_length (text : String) (minLen maxLen : Nat) :
    Except ChunkingError Unit :=
  if text.data = [] || (pyStrip text.data).isEmpty then
    .error ⟨"text is empty"⟩
  else if (pyStrip text.data).length < minLen then
    .error ⟨"text too short"⟩
  else if maxLen < (pyStrip text.data).length then
    .error ⟨"text too long"⟩
  else
    .ok ()

/-! ## chunking_config.py -/

def MIN_CHUNK_SIZE : Nat := 10

def MAX_CHUNK_SIZE : Nat := 10000

/-- `DOCUMENT_START_MARKER = r"\begin{document}"`. -/
def DOCUMENT_START_MARKER : String := "\\begin\x7bdocument\x7d"

/-! ## Enhanced two-level cache (enhanced_cache_system.py)

The 256-bit `hashlib.sha256(...).hexdigest()` digest, and the
`len(json.dumps(...))` content lengths, are external-library functions; they
are modelled as parameters bundled in `Ext`.  The filesystem directories
`full_documents/` and `pages/` become two association lists from hash key to
file content, and the SQLite table `cache_metadata` (primary key `file_hash`)
becomes an association list of `CacheMetadata` rows. -/

/-- `CacheLevel` from `enhanced_cache_system.py`. -/
inductive CacheLevel where
  | FULL_DOCUMENT
  | INDIVIDUAL_PAGE
deriving DecidableEq

/-- One per-page analysis result dict
(`{"page_number": ..., "content": ..., "source_file": ..., "page_file_name": ...}`)
as produced by the orchestrator and stored in the cache. -/
structure PageResult where
  page_number : Nat
  content : String
  source_file : String
  page_file_name : String
deriving DecidableEq

/-- Content of one cache artifact file.  A well-formed full-document file
holds a `pages_content` list, a well-formed page file holds a `page_content`
dict; anything else (truncated file, JSON decode failure, missing key) makes
`json.load` / the key lookup raise, which is the `corrupted` case. -/
inductive FileContent where
  | fullDoc (pages : List PageResult)
  | pageDoc (content : PageResult)
  | corrupted
deriving DecidableEq

/-- A row of the `cache_metadata` SQLite table (`CacheMetadata` dataclass).
Timestamps are integers ordered like the ISO strings the code stores. -/
structure CacheMetadata where
  file_hash : String
  cache_type : CacheLevel
  original_filename : String
  page_number : Option Nat
  parent_document_hash : Option String
  file_size : Nat
  processing_time : Nat
  created_at : Int
  last_accessed : Int
  access_count : Nat
  content_length : Nat
deriving DecidableEq

/-- The in-memory `session_stats` dict.  `bytes_saved` is declared by the
code but never incremented. -/
structure SessionStats where
  cache_hits : Nat
  cache_misses : Nat
  bytes_saved : Nat
  api_calls_saved : Nat
deriving DecidableEq

/-- Whole state of one `EnhancedDocumentIntelligenceCache`: the two content
directories, the metadata table and the session counters. -/
structure CacheState where
  fullDocFiles : List (String × FileContent)
  pageFiles : List (String × FileContent)
  metadata : List CacheMetadata
  session_stats : SessionStats
deriving DecidableEq

/-- A fresh cache directory with an empty metadata table and zeroed session
counters, as built by `__init__`. -/
def emptyCacheState : CacheState := ⟨[], [], [], ⟨0, 0, 0, 0⟩⟩

/-- External-library functions used by the cache: the `hashlib.sha256`
hex digest over a byte sequence, and `len(json.dumps(...))` of the two
payload shapes. -/
structure Ext where
  sha256 : List Nat → String
  jsonLenPages : List PageResult → Nat
  jsonLenPage : PageResult → Nat

/-- UTF-8 bytes of an ASCII prefix string such as `"page_3"`; on the ASCII
prefixes the code uses, code points and UTF-8 bytes coincide. -/
def strBytes (s : String) : List Nat := s.data.map Char.toNat

/-- `_get_file_hash(file_bytes, prefix="")`: the hasher is updated with the
encoded prefix only when the prefix is non-empty (a falsy empty string is
skipped), then with the content bytes. -/
def getFileHash (E : Ext) (fileBytes : List Nat) (pfx : String) : String :=
  if pfx = "" then E.sha256 fileBytes
  else E.sha256 (strBytes pfx ++ fileBytes)

/-- `_get_file_hash(file_bytes)` with the default (absent) prefix argument. -/
def getFileHashDefault (E : Ext) (fileBytes : List Nat) : String :=
  getFileHash E fileBytes ""

/-- First binding of a key in an association list (file lookup by path). -/
def lookupA {α : Type} (k : String) : List (String × α) → Option α
  | [] => none
  | p :: t => if p.1 = k then some p.2 else lookupA k t

/-- Write a file: replace the binding if present, else append it. -/
def insertA {α : Type} (k : String) (v : α) : List (String × α) → List (String × α)
  | [] => [(k, v)]
  | p :: t => if p.1 = k then (k, v) :: t else p :: insertA k v t

/-- `SELECT * FROM cache_metadata WHERE file_hash = ?` (point lookup on the
primary key). -/
def metaLookup (h : String) : List CacheMetadata → Option CacheMetadata
  | [] => none
  | m :: t => if m.file_hash = h then some m else metaLookup h t

/-- `INSERT OR REPLACE INTO cache_metadata ...` keyed by `file_hash`. -/
def metaInsert (m : CacheMetadata) : List CacheMetadata → List CacheMetadata
  | [] => [m]
  | x :: t => if x.file_hash = m.file_hash then m :: t else x :: metaInsert m t

/-- `_update_access_info`: `UPDATE cache_metadata SET last_accessed = ?,
access_count = access_count + 1 WHERE file_hash = ?`. -/
def metaUpdateAccess (now : Int) (h : String) (l : List CacheMetadata) :
    List CacheMetadata :=
  l.map fun m =>
    if m.file_hash = h then
      { m with last_accessed := now, access_count := m.access_count + 1 }
    else m

/-- `has_full_document_cache`: the content file exists and a metadata row
exists. -/
def has_full_document_cache (E : Ext) (st : CacheState) (fileBytes : List Nat) : Bool :=
  let h := getFileHash E fileBytes ""
  (lookupA h st.fullDocFiles).isSome && (metaLookup h st.metadata).isSome

/-- `has_page_cache`: same dual check for a page entry.  The key is the hash
of the page bytes with the `"page_<n>"` prefix; the `parent_hash` argument is
accepted but plays no part in the key. -/
def has_page_cache (E : Ext) (st : CacheState) (pageBytes : List Nat)
    (page_number : Nat) (parent_hash : String) : Bool :=
  let h := getFileHash E pageBytes ("page_" ++ toString page_number)
  let _ := parent_hash
  (lookupA h st.pageFiles).isSome && (metaLookup h st.metadata).isSome

/-- `get_full_document_cache`: on a failed `has` check count a miss; then read
the file — a well-formed payload is returned after access bookkeeping and hit
counting, while a deserialization failure is caught, counted as a miss and
`None` is returned (the corrupted entry is left in place). -/
def get_full_document_cache (E : Ext) (now : Int) (st : CacheState)
    (fileBytes : List Nat) (filename : String) :
    Option (List PageResult) × CacheState :=
  let _ := filename
  let h := getFileHash E fileBytes ""
  if has_full_document_cache E st fileBytes then
    match lookupA h st.fullDocFiles with
    | some (.fullDoc pages) =>
      (some pages,
        { st with
          metadata := metaUpdateAccess now h st.metadata,
          session_stats :=
            { st.session_stats with
              cache_hits := st.session_stats.cache_hits + 1,
              api_calls_saved := st.session_stats.api_calls_saved + 1 } })
    | _ =>
      (none,
        { st with session_stats :=
          { st.session_stats with
            cache_misses := st.session_stats.cache_misses + 1 } })
  else
    (none,
      { st with session_stats :=
        { st.session_stats with
          cache_misses := st.session_stats.cache_misses + 1 } })

/-- `get_page_cache`: page-level analogue of `get_full_document_cache`; the
`parent_hash` argument is accepted but unused. -/
def get_page_cache (E : Ext) (now : Int) (st : CacheState) (pageBytes : List Nat)
    (filename : String) (page_number : Nat) (parent_hash : String) :
    Option PageResult × CacheState :=
  let _ := filename
  let h := getFileHash E pageBytes ("page_" ++ toString page_number)
  if has_page_cache E st pageBytes page_number parent_hash then
    match lookupA h st.pageFiles with
    | some (.pageDoc c) =>
      (some c,
        { st with
          metadata := metaUpdateAccess now h st.metadata,
          session_stats :=
            { st.session_stats with
              cache_hits := st.session_stats.cache_hits + 1,
              api_calls_saved := st.session_stats.api_calls_saved + 1 } })
    | _ =>
      (none,
        { st with session_stats :=
          { st.session_stats with
            cache_misses := st.session_stats.cache_misses + 1 } })
  else
    (none,
      { st with session_stats :=
        { st.session_stats with
          cache_misses := st.session_stats.cache_misses + 1 } })

/-- The metadata row written by `save_full_document_cache`. -/
def fullDocMetadata (E : Ext) (now : Int) (fileBytes : List Nat)
    (filename : String) (pages : List PageResult) (ptime : Nat) : CacheMetadata :=
  { file_hash := getFileHash E fileBytes ""
    cache_type := .FULL_DOCUMENT
    original_filename := filename
    page_number := none
    parent_document_hash := none
    file_size := fileBytes.length
    processing_time := ptime
    created_at := now
    last_accessed := now
    access_count := 0
    content_length := E.jsonLenPages pages }

/-- `save_full_document_cache`: write the content file, then insert-or-replace
the metadata row (access_count starts at 0); returns success. -/
def save_full_document_cache (E : Ext) (now : Int) (st : CacheState)
    (fileBytes : List Nat) (filename : String) (pages : List PageResult)
    (ptime : Nat) : Bool × CacheState :=
  let h := getFileHash E fileBytes ""
  (true,
    { st with
      fullDocFiles := insertA h (.fullDoc pages) st.fullDocFiles,
      metadata := metaInsert (fullDocMetadata E now fileBytes filename pages ptime)
        st.metadata })

/-- The metadata row written by `save_page_cache`. -/
def pageMetadata (E : Ext) (now : Int) (pageBytes : List Nat) (filename : String)
    (page_number : Nat) (parent_hash : String) (content : PageResult)
    (ptime : Nat) : CacheMetadata :=
  { file_hash := getFileHash E pageBytes ("page_" ++ toString page_number)
    cache_type := .INDIVIDUAL_PAGE
    original_filename := filename
    page_number := some page_number
    parent_document_hash := some parent_hash
    file_size := pageBytes.length
    processing_time := ptime
    created_at := now
    last_accessed := now
    access_count := 0
    content_length := E.jsonLenPage content }

/-- `save_page_cache`: write the page content file, then insert-or-replace the
metadata row (the parent hash is recorded in the row, not in the key). -/
def save_page_cache (E : Ext) (now : Int) (st : CacheState) (pageBytes : List Nat)
    (filename : String) (page_number : Nat) (parent_hash : String)
    (content : PageResult) (ptime : Nat) : Bool × CacheState :=
  let h := getFileHash E pageBytes ("page_" ++ toString page_number)
  (true,
    { st with
      pageFiles := insertA h (.pageDoc content) st.pageFiles,
      metadata := metaInsert
        (pageMetadata E now pageBytes filename page_number parent_hash content ptime)
        st.metadata })

/-! ## cleanup_by_criteria -/

/-- The optional size criterion: appended to the query only when
`max_size_mb` is truthy (present and non-zero), and then selects rows with
`file_size > max_size_mb * 1024 * 1024`. -/
def sizeCriterion (max_size_mb : Option Nat) (fsize : Nat) : Bool :=
  match max_size_mb with
  | some m => if m = 0 then false else decide (m * 1024 * 1024 < fsize)
  | none => false

/-- The row-selection predicate of `cleanup_by_criteria`:
`last_accessed < cutoff OR access_count < min_access_count OR (optionally)
file_size > cap` — a logical OR across the criteria. -/
def cleanupCriterion (cutoff : Int) (min_access_count : Nat)
    (max_size_mb : Option Nat) (m : CacheMetadata) : Bool :=
  decide (m.last_accessed < cutoff) || decide (m.access_count < min_access_count)
    || sizeCriterion max_size_mb m.file_size

/-- Deletion of one selected row: unlink its content file (in the directory
named by its `cache_type`) and delete its metadata row. -/
def removeEntry (s : CacheState) (m : CacheMetadata) : CacheState :=
  { fullDocFiles :=
      if m.cache_type = CacheLevel.FULL_DOCUMENT then
        s.fullDocFiles.filter fun p => p.1 != m.file_hash
      else s.fullDocFiles,
    pageFiles :=
      if m.cache_type = CacheLevel.INDIVIDUAL_PAGE then
        s.pageFiles.filter fun p => p.1 != m.file_hash
      else s.pageFiles,
    metadata := s.metadata.filter fun x => x.file_hash != m.file_hash,
    session_stats := s.session_stats }

/-- `cleanup_by_criteria(days_old, min_access_count, max_size_mb)`: select the
rows matching the OR of the criteria (cutoff is `now` minus `days_old` days),
remove each selected entry, and return how many were removed. -/
def cleanup_by_criteria (now : Int) (st : CacheState) (days_old : Nat)
    (min_access_count : Nat) (max_size_mb : Option Nat) : Nat × CacheState :=
  let cutoff : Int := now - (days_old : Int)
  let toRemove := st.metadata.filter (cleanupCriterion cutoff min_access_count max_size_mb)
  (toRemove.length, toRemove.foldl removeEntry st)

/-! ## PDF page splitting (pdf_page_splitter.py)

`fitz` (PyMuPDF) is an external library; opening a document is modelled as a
parameter `parse` that either yields the per-page single-page PDF bytes and
the document metadata, or fails with an error message.  Per-page insert/write
operations of a successfully opened document are modelled as succeeding. -/

/-- A successfully parsed document: the single-page PDF bytes of each page,
in original order, plus the document metadata mapping. -/
structure ParsedPdf where
  pages : List (List Nat)
  metadata : List (String × String)
deriving DecidableEq

/-- One element of the list returned by `split_pdf_to_pages`. -/
structure PageInfo where
  page_number : Nat
  page_bytes : List Nat
  source_file : String
  page_file_name : String
deriving DecidableEq

/-- The dict returned by `get_pdf_info`. -/
structure PdfInfo where
  page_count : Nat
  metadata : List (String × String)
  error : Option String
deriving DecidableEq

/-- `Path(name).stem`: the file name with its last suffix removed (a dot at
position 0 does not count as a suffix separator). -/
def pathStem (name : String) : String :=
  match (name.data.enum.filter fun p => p.2 = '.').getLast? with
  | some (0, _) => name
  | some (i, _) => ⟨name.data.take i⟩
  | none => name

/-- `PDFPageSplitter.get_pdf_info`: on success report the page count and
metadata; on any parse error return `page_count = 0` with an `error` field
instead of raising. -/
def get_pdf_info (parse : List Nat → Except String ParsedPdf)
    (pdfBytes : List Nat) : PdfInfo :=
  match parse pdfBytes with
  | .ok d => ⟨d.pages.length, d.metadata, none⟩
  | .error e => ⟨0, [], some e⟩

/-- `PDFPageSplitter.split_pdf_to_pages`: one `PageInfo` per page with 1-based
page numbers in original order; on any error the fallback is a single
`PageInfo` carrying the whole original document as page 1. -/
def split_pdf_to_pages (parse : List Nat → Except String ParsedPdf)
    (pdfBytes : List Nat) (file_name : String) : List PageInfo :=
  match parse pdfBytes with
  | .ok d =>
    d.pages.enum.map fun p =>
      ⟨p.1 + 1, p.2, file_name,
        pathStem file_name ++ "_page_" ++ toString (p.1 + 1) ++ ".pdf"⟩
  | .error _ => [⟨1, pdfBytes, file_name, file_name⟩]

/-! ## Orchestrator (azure_client.py, analyze_pdf_pages_with_enhanced_cache)

The Azure Document Intelligence call for one page is modelled as a parameter
`svc` from page bytes to either an error (a raised exception, caught per
page) or the extracted content string, which the code strips.  Wall-clock
processing times are irrelevant to every claim and modelled as 0. -/

/-- Result of one orchestrated analysis: the ordered page payloads, the cache
state afterwards, the log of page byte sequences sent to the external
service, and how many times the PDF was split into pages. -/
structure AnalyzeResult where
  pages_content : List PageResult
  state : CacheState
  service_calls : List (List Nat)
  split_calls : Nat
deriving DecidableEq

/-- The per-page body of the orchestrator loop: page-cache lookup; on a hit
append the cached payload; on a miss call the service (logging the call) —
an exception skips the page, empty stripped content is neither appended nor
cached, and non-empty content is appended and written to the page cache. -/
def pageStep (E : Ext) (svc : List Nat → Except Unit String) (now : Int)
    (file_name parent_hash : String)
    (acc : List PageResult × CacheState × List (List Nat)) (pd : PageInfo) :
    List PageResult × CacheState × List (List Nat) :=
  match get_page_cache E now acc.2.1 pd.page_bytes file_name pd.page_number parent_hash with
  | (some cached, st1) => (acc.1 ++ [cached], st1, acc.2.2)
  | (none, st1) =>
    match svc pd.page_bytes with
    | .error _ => (acc.1, st1, acc.2.2 ++ [pd.page_bytes])
    | .ok raw =>
      let content := pyStripStr raw
      if content = "" then (acc.1, st1, acc.2.2 ++ [pd.page_bytes])
      else
        let pr : PageResult :=
          ⟨pd.page_number, content, file_name, pd.page_file_name⟩
        (acc.1 ++ [pr],
          (save_page_cache E now st1 pd.page_bytes file_name pd.page_number
            parent_hash pr 0).2,
          acc.2.2 ++ [pd.page_bytes])

/-- `analyze_pdf_pages_with_enhanced_cache`: first try the FULL_DOCUMENT
cache and return its payload immediately on a hit; otherwise split into
pages, process each page through `pageStep`, and finally (when any page
produced content) write the FULL_DOCUMENT entry for the whole result. -/
def analyze_pdf_pages_with_enhanced_cache (E : Ext)
    (svc : List Nat → Except Unit String)
    (parse : List Nat → Except String ParsedPdf) (now : Int) (st : CacheState)
    (fileBytes : List Nat) (file_name : String) : AnalyzeResult :=
  match get_full_document_cache E now st fileBytes file_name with
  | (some pages, st1) => ⟨pages, st1, [], 0⟩
  | (none, st1) =>
    let pagesData := split_pdf_to_pages parse fileBytes file_name
    let parent_hash := getFileHash E fileBytes ""
    let r := pagesData.foldl (pageStep E svc now file_name parent_hash) ([], st1, [])
    let st2 :=
      if r.1 = [] then r.2.1
      else (save_full_document_cache E now r.2.1 fileBytes file_name r.1 0).2
    ⟨r.1, st2, r.2.2, 1⟩

/-! ## SECTION_REGEX matching (chunking_config.py / chunking_engine.py)

`SECTION_REGEX = re.compile(r'\\(?:section)\*?\s*{[^}]*}', re.IGNORECASE)`.
The matcher below decides whether this pattern matches at the head of a
character list; for this pattern the backtracking-greedy semantics coincide
with the maximal-munch reading implemented here (a shorter `\s*` would leave
a whitespace character where `{` is required, and a shorter `[^}]*` would
leave a non-`}` character where `}` is required).  Case-insensitivity is
modelled for ASCII via `Char.toLower`. -/

/-- The literal letters of the pattern's `(?:section)` group. -/
def sectionKeyword : List Char := ['s', 'e', 'c', 't', 'i', 'o', 'n']

/-- Match a lowercase literal case-insensitively at the head of a list,
returning the remainder on success. -/
def matchLower : List Char → List Char → Option (List Char)
  | [], l => some l
  | _ :: _, [] => none
  | p :: ps, c :: cs => if c.toLower = p then matchLower ps cs else none

/-- Consume the pattern's optional `\*?` star (greedy, which is safe here
because a retained star can never block a match that skipping it would
allow). -/
def afterStar (l : List Char) : List Char :=
  match l with
  | c :: t => if c = '*' then t else c :: t
  | [] => []

/-- Match the pattern's `{[^}]*}` tail: an opening brace, a maximal run of
non-closing-brace characters, then the closing brace; returns the remainder
after the closing brace. -/
def sectionBrace (r3 : List Char) : Option (List Char) :=
  match r3 with
  | [] => none
  | b :: r4 =>
    if b = lbrace then
      match r4.drop (r4.takeWhile fun d => d ≠ rbrace).length with
      | [] => none
      | d :: r6 => if d = rbrace then some r6 else none
    else none

/-- Match the pattern part after the literal `\section`: optional star,
maximal whitespace run (`\s*`), then the braced group. -/
def sectionAfterKeyword (r1 : List Char) : Option (List Char) :=
  let r2 := afterStar r1
  sectionBrace (r2.drop (r2.takeWhile isPySpace).length)

/-- Match `SECTION_REGEX` at the head of a list, returning the remainder
after the match on success. -/
def matchSectionRem : List Char → Option (List Char)
  | [] => none
  | c :: rest =>
    if c = '\\' then
      match matchLower sectionKeyword rest with
      | none => none
      | some r1 => sectionAfterKeyword r1
    else none

/-- `SECTION_REGEX.finditer`: scan left to right, record each match as a
`(start, end)` index pair, and resume scanning at the end of each match. -/
def findSectionsAux : Nat → List Char → Nat → List (Nat × Nat)
  | 0, _, _ => []
  | _ + 1, [], _ => []
  | fuel + 1, c :: rest, i =>
    match matchSectionRem (c :: rest) with
    | some r =>
      let len := (c :: rest).length - r.length
      (i, i + len) :: findSectionsAux fuel ((c :: rest).drop len) (i + len)
    | none => findSectionsAux fuel rest (i + 1)

/-- All `SECTION_REGEX` matches of a character list. -/
def findSections (cs : List Char) : List (Nat × Nat) :=
  findSectionsAux cs.length cs 0

/-- `text.find(marker)`: index of the first occurrence of a substring. -/
def findSubAux : Nat → List Char → List Char → Nat → Option Nat
  | 0, cs, pat, i => if pat.isPrefixOf cs then some i else none
  | fuel + 1, cs, pat, i =>
    if pat.isPrefixOf cs then some i
    else
      match cs with
      | [] => none
      | _ :: t => findSubAux fuel t pat (i + 1)

/-- `text.find(marker)` as an optional index. -/
def findSub (cs pat : List Char) : Option Nat := findSubAux cs.length cs pat 0

/-- The text that SECTION mode actually chunks: everything before the first
`DOCUMENT_START_MARKER` occurrence is discarded when the marker is present. -/
def afterMarker (cs : List Char) : List Char :=
  match findSub cs DOCUMENT_START_MARKER.data with
  | some idx => cs.drop idx
  | none => cs

/-- The chunk spans of SECTION mode: each span runs from one match start to
the next match start (or to the end of the text for the last match). -/
def sectionSpans : List (Nat × Nat) → Nat → List (Nat × Nat)
  | [], _ => []
  | m :: rest, total =>
    (m.1, match rest with | m2 :: _ => m2.1 | [] => total) :: sectionSpans rest total

/-! ## ChunkingEngine (chunking_engine.py) -/

/-- `ChunkingEngine.split_by_splitter`: validate, delegate to the external
LangChain `LatexTextSplitter` (the `splitText` parameter), drop segments
whose strip is empty, and clean the rest.  There is no fallback chunk. -/
def split_by_splitter (splitText : String → List String) (latex : String) :
    Except ChunkingError (List String) :=
  match validate_text_length latex MIN_CHUNK_SIZE MAX_CHUNK_SIZE with
  | .error e => .error ⟨"LangChain splitter error: " ++ e.msg⟩
  | .ok _ =>
    .ok (((splitText latex).filter fun c => !(pyStrip c.data).isEmpty).map clean_chunk)

/-- `ChunkingEngine.split_by_section`: validate, discard front matter before
the document-body marker, find all section matches; with no match the whole
(cleaned) text is the single chunk, otherwise one cleaned chunk per span,
dropping any that clean to the empty string. -/
def split_by_section (latex : String) : Except ChunkingError (List String) :=
  match validate_text_length latex MIN_CHUNK_SIZE MAX_CHUNK_SIZE with
  | .error e => .error ⟨"section split error: " ++ e.msg⟩
  | .ok _ =>
    let cs := afterMarker latex.data
    let ms := findSections cs
    if ms.isEmpty then .ok [clean_chunk ⟨cs⟩]
    else
      .ok ((((sectionSpans ms cs.length).map fun se =>
        clean_chunk ⟨(cs.drop se.1).take (se.2 - se.1)⟩).filter fun c => c ≠ ""))

/-! ## NLPChunkingEngine.split_by_sentence_nlp (nlp_chunking_engine.py)

The method's first statement is
`validate_text_length(text, MIN_CHUNK_SIZE, MAX_CHUNK_SIZE, skip_max_validation=True)`,
but `validate_text_length` in `text_utils.py` has no `skip_max_validation`
parameter, so Python raises `TypeError` at the call, which the method's
`except Exception` re-raises as a `ChunkingError`.  (Independently, the
`_protect_latex_elements` / `_restore_latex_elements` helpers the method
would call next are nested inside a module-level function due to an
indentation slip, so they are not methods of the class at all.)  The
modelled call therefore provably never returns normally. -/

/-- The call `validate_text_length(text, min, max, skip_max_validation=True)`
as executed by Python: an unexpected keyword argument raises `TypeError`
before the callee body runs, for every input. -/
def validate_text_length_with_skip_kwarg (text : String) (minLen maxLen : Nat) :
    Except String Empty :=
  let _ := text
  let _ := minLen
  let _ := maxLen
  .error "TypeError: validate_text_length got an unexpected keyword argument skip_max_validation"

/-- `NLPChunkingEngine.split_by_sentence_nlp`: the validation call raises
`TypeError`, which `except Exception` converts into a `ChunkingError`; no
input reaches the protect/tokenize/restore logic. -/
def split_by_sentence_nlp (latex : String) : Except ChunkingError (List String) :=
  match validate_text_length_with_skip_kwarg latex MIN_CHUNK_SIZE MAX_CHUNK_SIZE with
  | .error e => .error ⟨"NLP sentence split error: " ++ e⟩
  | .ok x => x.elim

/-! ## Concrete external instantiations used by closed witness statements -/

/-- A concrete, collision-free stand-in digest for witness evaluation: the
byte values joined by underscores. -/
def digestC (bs : List Nat) : String := String.intercalate "_" (bs.map toString)

/-- A concrete `Ext` bundle for witness evaluation. -/
def extC : Ext := ⟨digestC, fun _ => 0, fun _ => 0⟩

/-- A concrete parser: document `[0]` has pages `[7]` and `[8]`, document
`[1]` has pages `[7]` and `[9]` (so the two documents share page 1
byte-for-byte), anything else fails to open. -/
def parseC : List Nat → Except String ParsedPdf := fun b =>
  if b = [0] then .ok ⟨[[7], [8]], []⟩
  else if b = [1] then .ok ⟨[[7], [9]], []⟩
  else .error "cannot open document"

/-- A concrete external analysis service giving non-empty content to each
single-page document of `parseC`. -/
def svcC : List Nat → Except Unit String := fun pb =>
  if pb = [7] then .ok "shared" else if pb = [8] then .ok "p8" else .ok "p9"

/-- A FULL_DOCUMENT metadata row for the corrupted-entry scenario. -/
def mdCorrupt : CacheMetadata :=
  ⟨"0", .FULL_DOCUMENT, "f.pdf", none, none, 1, 0, 50, 50, 0, 10⟩

/-- A PAGE metadata row for the corrupted-entry scenario (key is the digest
of page bytes `[7]` with the `"page_1"` prefix under `digestC`). -/
def mdCorruptPage : CacheMetadata :=
  ⟨"112_97_103_101_95_49_7", .INDIVIDUAL_PAGE, "f.pdf", some 1, some "0", 1, 0,
    50, 50, 0, 10⟩

/-- A cache state holding a corrupted full-document entry for bytes `[0]`
and a corrupted page entry for page 1 with bytes `[7]`, both with metadata
rows present. -/
def stCorrupt : CacheState :=
  ⟨[("0", .corrupted)], [("112_97_103_101_95_49_7", .corrupted)],
    [mdCorrupt, mdCorruptPage], ⟨0, 0, 0, 0⟩⟩

/-- The payload of the pre-populated FULL_DOCUMENT entry used as the C2
witness. -/
def prHit : PageResult := ⟨1, "warm", "d.pdf", "d_page_1.pdf"⟩

/-- The metadata row of the pre-populated FULL_DOCUMENT entry. -/
def mdHit : CacheMetadata :=
  ⟨"0", .FULL_DOCUMENT, "d.pdf", none, none, 1, 0, 50, 50, 0, 10⟩

/-- A cache state with a warm FULL_DOCUMENT entry for bytes `[0]`. -/
def stHit : CacheState := ⟨[("0", .fullDoc [prHit])], [], [mdHit], ⟨0, 0, 0, 0⟩⟩

/-- The page payload saved under parent `"parentA"` in the C3
counterexample. -/
def prShared : PageResult := ⟨1, "shared", "a.pdf", "a_page_1.pdf"⟩

/-- First orchestrator run of the C3 scenario: document `[0]` with pages
`[7]` and `[8]`, starting from an empty cache. -/
def runD1 : AnalyzeResult :=
  analyze_pdf_pages_with_enhanced_cache extC svcC parseC 100 emptyCacheState
    [0] "d1.pdf"

/-- Second orchestrator run of the C3 scenario: document `[1]` with pages
`[7]` and `[9]`, sharing page 1 byte-for-byte with document `[0]`. -/
def runD2 : AnalyzeResult :=
  analyze_pdf_pages_with_enhanced_cache extC svcC parseC 100 runD1.state
    [1] "d2.pdf"

/-- Cleanup-scenario metadata row with `access_count = 0`. -/
def mdAcc0 : CacheMetadata :=
  ⟨"hA", .FULL_DOCUMENT, "a.pdf", none, none, 100, 0, 100, 100, 0, 10⟩

/-- Cleanup-scenario metadata row with `access_count = 1`. -/
def mdAcc1 : CacheMetadata :=
  ⟨"hB", .FULL_DOCUMENT, "b.pdf", none, none, 100, 0, 100, 100, 1, 10⟩

/-- Cleanup-scenario metadata row with `access_count = 5`. -/
def mdAcc5 : CacheMetadata :=
  ⟨"hC", .FULL_DOCUMENT, "c.pdf", none, none, 100, 0, 100, 100, 5, 10⟩

/-- Cleanup-scenario cache: three freshly accessed entries with access
counts 0, 1 and 5. -/
def stCleanup : CacheState :=
  ⟨[("hA", .fullDoc []), ("hB", .fullDoc []), ("hC", .fullDoc [])], [],
    [mdAcc0, mdAcc1, mdAcc5], ⟨0, 0, 0, 0⟩⟩

/-! ## Association-list and metadata-table lemmas -/

theorem lookupA_insertA_self {α : Type} (k : String) (v : α)
    (l : List (String × α)) : lookupA k (insertA k v l) = some v := by
  induction l with
  | nil => simp [insertA, lookupA]
  | cons p t ih =>
    by_cases h : p.1 = k
    · simp [insertA, h, lookupA]
    · simp [insertA, h, lookupA, ih]

theorem metaLookup_metaInsert_self (m : CacheMetadata) (l : List CacheMetadata) :
    metaLookup m.file_hash (metaInsert m l) = some m := by
  induction l with
  | nil => simp [metaInsert, metaLookup]
  | cons x t ih =>
    by_cases h : x.file_hash = m.file_hash
    · simp [metaInsert, h, metaLookup]
    · simp [metaInsert, h, metaLookup, ih]

theorem metaLookup_metaUpdateAccess (now : Int) (h : String)
    (l : List CacheMetadata) :
    metaLookup h (metaUpdateAccess now h l) =
      (metaLookup h l).map fun m =>
        { m with last_accessed := now, access_count := m.access_count + 1 } := by
  induction l with
  | nil => simp [metaUpdateAccess, metaLookup]
  | cons x t ih =>
    by_cases hx : x.file_hash = h
    · simp [metaUpdateAccess, metaLookup, hx]
    · simp only [metaUpdateAccess, List.map_cons, if_neg hx]
      simp only [metaLookup, if_neg hx]
      simpa [metaUpdateAccess] using ih

/-! ## Claim theorems, first batch -/

/-- C10: for every byte sequence, the fingerprint computed with the
empty-string prefix equals both the fingerprint computed with the absent
(default) prefix and the bare digest of the content bytes — the hasher skips
an empty prefix, so an empty prefix provides no disambiguation. -/
theorem c10_empty_prefix_is_skipped (E : Ext) (b : List Nat) :
    getFileHash E b "" = getFileHashDefault E b ∧ getFileHash E b "" = E.sha256 b :=
  ⟨rfl, by simp [getFileHash]⟩

/-- C9: whenever the PDF parser fails on the input bytes, `get_pdf_info`
returns `page_count = 0` with the error recorded in an `error` field instead
of raising, and `split_pdf_to_pages` falls back to a single `PageInfo` with
`page_number = 1` carrying the entire original document. -/
theorem c9_page_splitter_soft_failure (parse : List Nat → Except String ParsedPdf)
    (b : List Nat) (name e : String) (hp : parse b = .error e) :
    get_pdf_info parse b = ⟨0, [], some e⟩ ∧
      split_pdf_to_pages parse b name = [⟨1, b, name, name⟩] := by
  constructor <;> simp [get_pdf_info, split_pdf_to_pages, hp]

/-- Witness for C9 at a concrete failing parse. -/
theorem c9_page_splitter_soft_failure_witness :
    get_pdf_info parseC [5] = ⟨0, [], some "cannot open document"⟩ ∧
      split_pdf_to_pages parseC [5] "bad.pdf" = [⟨1, [5], "bad.pdf", "bad.pdf"⟩] :=
  c9_page_splitter_soft_failure parseC [5] "bad.pdf" "cannot open document" (by decide)

/-- C7: `split_by_sentence_nlp` cannot perform its protect/tokenize/restore
pass at all — on the spec's own example input it raises a `ChunkingError`
wrapping the `TypeError` caused by the `skip_max_validation=True` keyword
argument that `validate_text_length` does not accept. -/
theorem c7_sentence_mode_always_raises :
    split_by_sentence_nlp "See \\cite\x7ba.b.c\x7d. Next sentence." =
      .error ⟨"NLP sentence split error: TypeError: validate_text_length got an unexpected keyword argument skip_max_validation"⟩ :=
  rfl

/-- A successful FULL_DOCUMENT lookup: with the content file present and
well-formed and a metadata row present, `get_full_document_cache` returns the
stored pages and performs the access bookkeeping and hit counting. -/
theorem get_full_document_cache_hit (E : Ext) (now : Int) (st : CacheState)
    (b : List Nat) (fn : String) (pages : List PageResult)
    (hf : lookupA (getFileHash E b "") st.fullDocFiles = some (.fullDoc pages))
    (hm : (metaLookup (getFileHash E b "") st.metadata).isSome = true) :
    get_full_document_cache E now st b fn =
      (some pages,
        { st with
          metadata := metaUpdateAccess now (getFileHash E b "") st.metadata,
          session_stats :=
            { st.session_stats with
              cache_hits := st.session_stats.cache_hits + 1,
              api_calls_saved := st.session_stats.api_calls_saved + 1 } }) := by
  simp [get_full_document_cache, has_full_document_cache, hf, hm]

/-- A successful PAGE lookup, analogous to `get_full_document_cache_hit`. -/
theorem get_page_cache_hit (E : Ext) (now : Int) (st : CacheState)
    (pb : List Nat) (fn : String) (n : Nat) (ph : String) (pc : PageResult)
    (hf : lookupA (getFileHash E pb ("page_" ++ toString n)) st.pageFiles =
      some (.pageDoc pc))
    (hm : (metaLookup (getFileHash E pb ("page_" ++ toString n)) st.metadata).isSome =
      true) :
    get_page_cache E now st pb fn n ph =
      (some pc,
        { st with
          metadata := metaUpdateAccess now (getFileHash E pb ("page_" ++ toString n))
            st.metadata,
          session_stats :=
            { st.session_stats with
              cache_hits := st.session_stats.cache_hits + 1,
              api_calls_saved := st.session_stats.api_calls_saved + 1 } }) := by
  simp [get_page_cache, has_page_cache, hf, hm]

/-- C4: for every payload and starting state, a put followed by a get of the
same fingerprint at the same level returns the payload, and the successful
get leaves the entry's `access_count` at exactly 1 (it was created at 0)
with `last_accessed` refreshed to the get's time — at the FULL_DOCUMENT
level and at the PAGE level alike. -/
theorem c4_cache_round_trip (E : Ext) (now1 now2 : Int) (st : CacheState)
    (b pb : List Nat) (fn : String) (pages : List PageResult) (pc : PageResult)
    (n : Nat) (ph : String) (pt : Nat) :
    ((get_full_document_cache E now2
        (save_full_document_cache E now1 st b fn pages pt).2 b fn).1 = some pages ∧
      metaLookup (getFileHash E b "")
          (get_full_document_cache E now2
            (save_full_document_cache E now1 st b fn pages pt).2 b fn).2.metadata =
        some { fullDocMetadata E now1 b fn pages pt with
                last_accessed := now2, access_count := 1 }) ∧
    ((get_page_cache E now2
        (save_page_cache E now1 st pb fn n ph pc pt).2 pb fn n ph).1 = some pc ∧
      metaLookup (getFileHash E pb ("page_" ++ toString n))
          (get_page_cache E now2
            (save_page_cache E now1 st pb fn n ph pc pt).2 pb fn n ph).2.metadata =
        some { pageMetadata E now1 pb fn n ph pc pt with
                last_accessed := now2, access_count := 1 }) := by
  constructor
  · have hins : metaLookup (getFileHash E b "")
        (metaInsert (fullDocMetadata E now1 b fn pages pt) st.metadata) =
        some (fullDocMetadata E now1 b fn pages pt) :=
      metaLookup_metaInsert_self (fullDocMetadata E now1 b fn pages pt) st.metadata
    have hget := get_full_document_cache_hit E now2
      (save_full_document_cache E now1 st b fn pages pt).2 b fn pages
      (lookupA_insertA_self _ _ _) (by rw [show (save_full_document_cache E now1 st b fn pages pt).2.metadata = metaInsert (fullDocMetadata E now1 b fn pages pt) st.metadata from rfl, hins]; rfl)
    rw [hget]
    refine ⟨rfl, ?_⟩
    show metaLookup (getFileHash E b "")
      (metaUpdateAccess now2 (getFileHash E b "")
        (metaInsert (fullDocMetadata E now1 b fn pages pt) st.metadata)) = _
    rw [metaLookup_metaUpdateAccess, hins]
    rfl
  · have hins : metaLookup (getFileHash E pb ("page_" ++ toString n))
        (metaInsert (pageMetadata E now1 pb fn n ph pc pt) st.metadata) =
        some (pageMetadata E now1 pb fn n ph pc pt) :=
      metaLookup_metaInsert_self (pageMetadata E now1 pb fn n ph pc pt) st.metadata
    have hget := get_page_cache_hit E now2
      (save_page_cache E now1 st pb fn n ph pc pt).2 pb fn n ph pc
      (lookupA_insertA_self _ _ _) (by rw [show (save_page_cache E now1 st pb fn n ph pc pt).2.metadata = metaInsert (pageMetadata E now1 pb fn n ph pc pt) st.metadata from rfl, hins]; rfl)
    rw [hget]
    refine ⟨rfl, ?_⟩
    show metaLookup (getFileHash E pb ("page_" ++ toString n))
      (metaUpdateAccess now2 (getFileHash E pb ("page_" ++ toString n))
        (metaInsert (pageMetadata E now1 pb fn n ph pc pt) st.metadata)) = _
    rw [metaLookup_metaUpdateAccess, hins]
    rfl

/-! ## C1: corrupted entries are not removed on read -/

/-- C1 (amended): when a cache entry exists (metadata row present, content
file present) but its payload fails to deserialize, the get operation returns
absent — but it deletes nothing: the content file and metadata row are left
exactly as they were, so a subsequent has check still returns true.  Stated
for both levels. -/
theorem c1_amended_corrupted_get_keeps_entry (E : Ext) (now : Int)
    (st : CacheState) (b pb : List Nat) (fn : String) (n : Nat) (ph : String)
    (fc gc : FileContent)
    (hmF : (metaLookup (getFileHash E b "") st.metadata).isSome = true)
    (hfF : lookupA (getFileHash E b "") st.fullDocFiles = some fc)
    (hcF : ∀ ps, fc ≠ FileContent.fullDoc ps)
    (hmP : (metaLookup (getFileHash E pb ("page_" ++ toString n)) st.metadata).isSome
      = true)
    (hfP : lookupA (getFileHash E pb ("page_" ++ toString n)) st.pageFiles = some gc)
    (hcP : ∀ c, gc ≠ FileContent.pageDoc c) :
    ((get_full_document_cache E now st b fn).1 = none ∧
      (get_full_document_cache E now st b fn).2.fullDocFiles = st.fullDocFiles ∧
      (get_full_document_cache E now st b fn).2.metadata = st.metadata ∧
      has_full_document_cache E (get_full_document_cache E now st b fn).2 b = true) ∧
    ((get_page_cache E now st pb fn n ph).1 = none ∧
      (get_page_cache E now st pb fn n ph).2.pageFiles = st.pageFiles ∧
      (get_page_cache E now st pb fn n ph).2.metadata = st.metadata ∧
      has_page_cache E (get_page_cache E now st pb fn n ph).2 pb n ph = true) := by
  constructor
  · cases fc with
    | fullDoc ps => exact absurd rfl (hcF ps)
    | pageDoc c =>
      simp [get_full_document_cache, has_full_document_cache, hfF, hmF]
    | corrupted =>
      simp [get_full_document_cache, has_full_document_cache, hfF, hmF]
  · cases gc with
    | pageDoc c => exact absurd rfl (hcP c)
    | fullDoc ps =>
      simp [get_page_cache, has_page_cache, hfP, hmP]
    | corrupted =>
      simp [get_page_cache, has_page_cache, hfP, hmP]

/-- C1 counterexample: a concrete cache whose entry exists but fails to
deserialize; `get_full_document_cache` returns absent, yet the subsequent
`has` check still returns true — the claimed deletion does not happen. -/
theorem c1_counterexample_entry_survives :
    has_full_document_cache extC stCorrupt [0] = true ∧
    (get_full_document_cache extC 100 stCorrupt [0] "f.pdf").1 = none ∧
    has_full_document_cache extC
      (get_full_document_cache extC 100 stCorrupt [0] "f.pdf").2 [0] = true := by
  decide

/-- Witness for the amended C1 at the concrete corrupted cache state. -/
theorem c1_amended_corrupted_get_keeps_entry_witness :
    ((get_full_document_cache extC 100 stCorrupt [0] "f.pdf").1 = none ∧
      (get_full_document_cache extC 100 stCorrupt [0] "f.pdf").2.fullDocFiles =
        stCorrupt.fullDocFiles ∧
      (get_full_document_cache extC 100 stCorrupt [0] "f.pdf").2.metadata =
        stCorrupt.metadata ∧
      has_full_document_cache extC
        (get_full_document_cache extC 100 stCorrupt [0] "f.pdf").2 [0] = true) ∧
    ((get_page_cache extC 100 stCorrupt [7] "f.pdf" 1 "0").1 = none ∧
      (get_page_cache extC 100 stCorrupt [7] "f.pdf" 1 "0").2.pageFiles =
        stCorrupt.pageFiles ∧
      (get_page_cache extC 100 stCorrupt [7] "f.pdf" 1 "0").2.metadata =
        stCorrupt.metadata ∧
      has_page_cache extC (get_page_cache extC 100 stCorrupt [7] "f.pdf" 1 "0").2
        [7] 1 "0" = true) :=
  c1_amended_corrupted_get_keeps_entry extC 100 stCorrupt [0] [7] "f.pdf" 1 "0"
    .corrupted .corrupted (by decide) (by decide) (fun ps h => nomatch h)
    (by decide) (by decide) (fun c h => nomatch h)

/-! ## C2: FULL_DOCUMENT short-circuit -/

/-- C2: when the whole-document fingerprint has a FULL_DOCUMENT cache hit
(content file present and well-formed, metadata row present), the
orchestrator returns the cached ordered page payload, performs zero calls to
the external analysis service, and never splits the document into pages. -/
theorem c2_full_document_short_circuit (E : Ext)
    (svc : List Nat → Except Unit String)
    (parse : List Nat → Except String ParsedPdf) (now : Int) (st : CacheState)
    (b : List Nat) (fn : String) (pages : List PageResult)
    (hf : lookupA (getFileHash E b "") st.fullDocFiles = some (.fullDoc pages))
    (hm : (metaLookup (getFileHash E b "") st.metadata).isSome = true) :
    (analyze_pdf_pages_with_enhanced_cache E svc parse now st b fn).pages_content =
      pages ∧
    (analyze_pdf_pages_with_enhanced_cache E svc parse now st b fn).service_calls =
      [] ∧
    (analyze_pdf_pages_with_enhanced_cache E svc parse now st b fn).split_calls =
      0 := by
  have hget := get_full_document_cache_hit E now st b fn pages hf hm
  simp [analyze_pdf_pages_with_enhanced_cache, hget]

/-- Witness for C2 at a concrete warm cache. -/
theorem c2_full_document_short_circuit_witness :
    (analyze_pdf_pages_with_enhanced_cache extC svcC parseC 100 stHit [0]
      "d.pdf").pages_content = [prHit] ∧
    (analyze_pdf_pages_with_enhanced_cache extC svcC parseC 100 stHit [0]
      "d.pdf").service_calls = [] ∧
    (analyze_pdf_pages_with_enhanced_cache extC svcC parseC 100 stHit [0]
      "d.pdf").split_calls = 0 :=
  c2_full_document_short_circuit extC svcC parseC 100 stHit [0] "d.pdf" [prHit]
    (by decide) (by decide)

/-! ## C3: page-level reuse across documents -/

/-- C3 counterexample: the page fingerprint is not scoped under the parent
document fingerprint — a page entry saved while processing a parent with
hash `"parentA"` is returned verbatim by a lookup that passes the different
parent hash `"parentB"`, because the key is computed from the page bytes and
page-number prefix only. -/
theorem c3_counterexample_key_ignores_parent :
    ("parentA" : String) ≠ "parentB" ∧
    (get_page_cache extC 100
      (save_page_cache extC 100 emptyCacheState [7] "a.pdf" 1 "parentA" prShared 0).2
      [7] "b.pdf" 1 "parentB").1 = some prShared := by
  decide

/-- C3 (amended): two documents share a byte-identical page at the same page
number and neither has a FULL_DOCUMENT entry; processing the second document
hits the PAGE cache for the shared page, so the external service is called
exactly once in total for that page across both documents (the second run
only calls it for its fresh page).  The page fingerprint is computed from
the page-number prefix and the page bytes only: the lookup is completely
independent of the parent fingerprint argument — which is precisely what
makes cross-document reuse possible. -/
theorem c3_amended_page_level_reuse :
    (runD1.service_calls ++ runD2.service_calls).count [7] = 1 ∧
    runD1.service_calls = [[7], [8]] ∧
    runD2.service_calls = [[9]] ∧
    runD2.pages_content =
      [⟨1, "shared", "d1.pdf", "d1_page_1.pdf"⟩,
        ⟨2, "p9", "d2.pdf", "d2_page_2.pdf"⟩] ∧
    (∀ (E : Ext) (now : Int) (s : CacheState) (pb : List Nat) (fn : String)
      (n : Nat) (ph1 ph2 : String),
      get_page_cache E now s pb fn n ph1 = get_page_cache E now s pb fn n ph2) :=
  ⟨by decide, by decide, by decide, by decide,
    fun _ _ _ _ _ _ _ _ => rfl⟩

/-! ## C5: cleanup removes exactly the rows matching the OR of the criteria -/

theorem removeEntry_metadata (s : CacheState) (m : CacheMetadata) :
    (removeEntry s m).metadata =
      s.metadata.filter fun x => x.file_hash != m.file_hash := rfl

theorem foldl_removeEntry_metadata (rs : List CacheMetadata) (s : CacheState) :
    (rs.foldl removeEntry s).metadata =
      s.metadata.filter fun m => rs.all fun r => m.file_hash != r.file_hash := by
  induction rs generalizing s with
  | nil => simp
  | cons r t ih =>
    rw [List.foldl_cons, ih, removeEntry_metadata, List.filter_filter]
    apply List.filter_congr
    intro m _
    simp [List.all_cons, Bool.and_comm]

theorem nodup_key_inj {l : List CacheMetadata}
    (h : (l.map fun m => m.file_hash).Nodup) :
    ∀ x ∈ l, ∀ y ∈ l, x.file_hash = y.file_hash → x = y := by
  induction l with
  | nil => simp
  | cons a t ih =>
    simp only [List.map_cons, List.nodup_cons] at h
    intro x hx y hy hxy
    rcases List.mem_cons.mp hx with hxa | hxt
    · rcases List.mem_cons.mp hy with hya | hyt
      · rw [hxa, hya]
      · exfalso
        have hmem : y.file_hash ∈ List.map (fun m => m.file_hash) t :=
          List.mem_map_of_mem (fun m => m.file_hash) hyt
        rw [← hxy, hxa] at hmem
        exact h.1 hmem
    · rcases List.mem_cons.mp hy with hya | hyt
      · exfalso
        have hmem : x.file_hash ∈ List.map (fun m => m.file_hash) t :=
          List.mem_map_of_mem (fun m => m.file_hash) hxt
        rw [hxy, hya] at hmem
        exact h.1 hmem
      · exact ih h.2 x hxt y hyt hxy

/-- C5: with distinct row keys (the table's primary-key invariant), cleanup
removes exactly the rows matching at least one criterion — last access older
than the cutoff OR access count below the threshold OR (when a non-zero size
cap is supplied) file size above the cap — returns the number of removed
rows, and keeps exactly the rows matching none of the criteria. -/
theorem c5_cleanup_or_criteria (now : Int) (st : CacheState)
    (days_old min_ac : Nat) (msz : Option Nat)
    (hnd : (st.metadata.map fun m => m.file_hash).Nodup) :
    (cleanup_by_criteria now st days_old min_ac msz).1 =
      (st.metadata.filter
        (cleanupCriterion (now - (days_old : Int)) min_ac msz)).length ∧
    (cleanup_by_criteria now st days_old min_ac msz).2.metadata =
      st.metadata.filter fun m =>
        !cleanupCriterion (now - (days_old : Int)) min_ac msz m := by
  refine ⟨rfl, ?_⟩
  rw [show (cleanup_by_criteria now st days_old min_ac msz).2 =
    (st.metadata.filter
      (cleanupCriterion (now - (days_old : Int)) min_ac msz)).foldl removeEntry st
    from rfl, foldl_removeEntry_metadata]
  apply List.filter_congr
  intro m hm
  by_cases hc : cleanupCriterion (now - (days_old : Int)) min_ac msz m = true
  · rw [hc]
    simp only [Bool.not_true]
    rw [List.all_eq_false]
    refine ⟨m, List.mem_filter.mpr ⟨hm, hc⟩, ?_⟩
    simp
  · rw [Bool.not_eq_true] at hc
    rw [hc]
    simp only [Bool.not_false]
    rw [List.all_eq_true]
    intro r hr
    rcases List.mem_filter.mp hr with ⟨hrl, hrc⟩
    have hne : m.file_hash ≠ r.file_hash := by
      intro he
      have := nodup_key_inj hnd m hm r hrl he
      rw [this] at hc
      rw [hrc] at hc
      exact Bool.false_ne_true hc.symm
    simp [hne]

/-- Witness for C5: `cleanup(days_old=9999, min_access_count=2)` on freshly
accessed entries with access counts [0,1,5] removes exactly the two entries
below the threshold; the `access_count = 5` entry remains. -/
theorem c5_cleanup_or_criteria_witness :
    (cleanup_by_criteria 100 stCleanup 9999 2 none).1 = 2 ∧
    (cleanup_by_criteria 100 stCleanup 9999 2 none).2.metadata = [mdAcc5] := by
  have h := c5_cleanup_or_criteria 100 stCleanup 9999 2 none (by decide)
  refine ⟨?_, ?_⟩
  · rw [h.1]; decide
  · rw [h.2]; decide

/-! ## Whitespace and cleaning lemmas for the chunking claims -/

theorem dropWhile_isPySpace_of_hasNS {l : List Char} (h : HasNS l) :
    ∃ c t, isPySpace c = false ∧ l.dropWhile isPySpace = c :: t := by
  induction l with
  | nil => rcases h with ⟨c, hc, _⟩; exact absurd hc (List.not_mem_nil c)
  | cons a t ih =>
    by_cases ha : isPySpace a = true
    · have ht : HasNS t := by
        rcases h with ⟨c, hc, hcf⟩
        rcases List.mem_cons.mp hc with rfl | hct
        · rw [ha] at hcf; exact absurd hcf (by simp)
        · exact ⟨c, hct, hcf⟩
      rcases ih ht with ⟨c, t2, hcf, hd⟩
      exact ⟨c, t2, hcf, by rw [List.dropWhile_cons_of_pos ha, hd]⟩
    · rw [Bool.not_eq_true] at ha
      exact ⟨a, t, ha, List.dropWhile_cons_of_neg (by rw [ha]; simp)⟩

theorem dropTrailing_cons_of_ns {c : Char} (hc : isPySpace c = false)
    (t : List Char) : dropTrailing (c :: t) = c :: dropTrailing t := by
  rw [dropTrailing]
  simp [hc]

theorem pyStrip_cons_of_hasNS {l : List Char} (h : HasNS l) :
    ∃ c t, isPySpace c = false ∧ pyStrip l = c :: t := by
  rcases dropWhile_isPySpace_of_hasNS h with ⟨c, t, hcf, hd⟩
  exact ⟨c, dropTrailing t, hcf, by rw [pyStrip, hd, dropTrailing_cons_of_ns hcf]⟩

theorem isPySpace_newline : isPySpace '\n' = true := by decide

theorem collapseAux_cons_of_ns {c : Char} (hc : isPySpace c = false)
    (fuel : Nat) (t : List Char) :
    collapseAux (fuel + 1) (c :: t) = c :: collapseAux fuel t := by
  have hcn : ¬ c = '\n' := by
    intro he; rw [he] at hc; exact absurd hc (by decide)
  rw [collapseAux]
  simp [hcn]

theorem cleanList_cons_of_hasNS {l : List Char} (h : HasNS l) :
    ∃ c t, isPySpace c = false ∧ cleanList l = c :: t := by
  rcases pyStrip_cons_of_hasNS h with ⟨c, t, hcf, hs⟩
  refine ⟨c, collapseAux t.length t, hcf, ?_⟩
  rw [cleanList, hs]
  exact collapseAux_cons_of_ns hcf t.length t

theorem cons_mk_ne_empty (c : Char) (t : List Char) : (⟨c :: t⟩ : String) ≠ "" := by
  intro h
  have : (⟨c :: t⟩ : String).data = ("" : String).data := by rw [h]
  simp at this

/-- Main cleaning lemma: cleaning any text containing a non-whitespace
character yields a chunk that is non-empty and remains non-empty after
trimming. -/
theorem clean_chunk_ne_of_hasNS {s : String} (h : HasNS s.data) :
    clean_chunk s ≠ "" ∧ pyStripStr (clean_chunk s) ≠ "" := by
  have hne : s.data ≠ [] := by
    intro he
    rcases h with ⟨c, hc, _⟩
    rw [he] at hc
    exact absurd hc (List.not_mem_nil c)
  rcases cleanList_cons_of_hasNS h with ⟨c, t, hcf, hcl⟩
  have hclean : clean_chunk s = ⟨c :: t⟩ := by
    rw [clean_chunk, if_neg hne, hcl]
  constructor
  · rw [hclean]; exact cons_mk_ne_empty c t
  · rw [hclean]
    show (⟨pyStrip (c :: t)⟩ : String) ≠ ""
    rw [pyStrip, List.dropWhile_cons_of_neg (by rw [hcf]; simp),
      dropTrailing_cons_of_ns hcf]
    exact cons_mk_ne_empty c (dropTrailing t)

theorem pyStrip_eq_nil_of_not_hasNS {l : List Char} (h : ¬ HasNS l) :
    pyStrip l = [] := by
  have hall : l.dropWhile isPySpace = [] := by
    rw [List.dropWhile_eq_nil_iff]
    intro x hx
    by_contra hxf
    exact h ⟨x, hx, by rw [Bool.not_eq_true] at hxf; exact hxf⟩
  rw [pyStrip, hall, dropTrailing]

theorem hasNS_of_pyStrip_ne_nil {l : List Char} (h : pyStrip l ≠ []) : HasNS l := by
  by_contra hns
  exact h (pyStrip_eq_nil_of_not_hasNS hns)

/-- A validated text contains a non-whitespace character. -/
theorem validate_ok_hasNS {s : String} {a b : Nat}
    (h : validate_text_length s a b = .ok ()) : HasNS s.data := by
  rw [validate_text_length] at h
  by_cases hc : (s.data = [] || (pyStrip s.data).isEmpty) = true
  · rw [if_pos hc] at h; exact absurd h (by simp)
  · apply hasNS_of_pyStrip_ne_nil
    intro hnil
    exact hc (by simp [hnil])

/-! ## Matcher length and head lemmas -/

theorem matchLower_length_le :
    ∀ (p l r : List Char), matchLower p l = some r → r.length ≤ l.length := by
  intro p
  induction p with
  | nil =>
    intro l r h
    rw [matchLower] at h
    cases h
    exact Nat.le_refl _
  | cons q qs ih =>
    intro l r h
    cases l with
    | nil => exact absurd h (by rw [matchLower]; simp)
    | cons c cs =>
      rw [matchLower] at h
      by_cases hq : c.toLower = q
      · rw [if_pos hq] at h
        exact Nat.le_trans (ih cs r h) (Nat.le_succ _)
      · rw [if_neg hq] at h
        exact absurd h (by simp)

theorem afterStar_length_le (l : List Char) : (afterStar l).length ≤ l.length := by
  cases l with
  | nil => exact Nat.le_refl _
  | cons c t =>
    rw [afterStar]
    by_cases hc : c = '*'
    · rw [if_pos hc]; exact Nat.le_succ _
    · rw [if_neg hc]

theorem sectionBrace_length_lt {r3 r6 : List Char} (h : sectionBrace r3 = some r6) :
    r6.length < r3.length := by
  cases r3 with
  | nil => exact absurd h (by rw [sectionBrace]; simp)
  | cons b r4 =>
    rw [sectionBrace] at h
    by_cases hb : b = lbrace
    · rw [if_pos hb] at h
      cases hdrop : r4.drop (r4.takeWhile fun d => d ≠ rbrace).length with
      | nil => rw [hdrop] at h; exact absurd h (by simp)
      | cons d r7 =>
        rw [hdrop] at h
        have h2 : (if d = rbrace then some r7 else none) = some r6 := h
        by_cases hd : d = rbrace
        · rw [if_pos hd] at h2
          cases h2
          have hlen : (r4.drop (r4.takeWhile fun d => d ≠ rbrace).length).length ≤
              r4.length := by
            rw [List.length_drop]; omega
          rw [hdrop] at hlen
          simp only [List.length_cons] at hlen ⊢
          omega
        · rw [if_neg hd] at h2; exact absurd h2 (by simp)
    · rw [if_neg hb] at h; exact absurd h (by simp)

theorem sectionAfterKeyword_length_lt {r1 r : List Char}
    (h : sectionAfterKeyword r1 = some r) : r.length < r1.length := by
  rw [sectionAfterKeyword] at h
  have h1 := sectionBrace_length_lt h
  have h2 : ((afterStar r1).drop
      ((afterStar r1).takeWhile isPySpace).length).length ≤ (afterStar r1).length := by
    rw [List.length_drop]; omega
  have h3 := afterStar_length_le r1
  omega

theorem matchSectionRem_head {l r : List Char} (h : matchSectionRem l = some r) :
    ∃ t, l = '\\' :: t := by
  cases l with
  | nil => exact absurd h (by rw [matchSectionRem]; simp)
  | cons c rest =>
    rw [matchSectionRem] at h
    by_cases hc : c = '\\'
    · exact ⟨rest, by rw [hc]⟩
    · rw [if_neg hc] at h; exact absurd h (by simp)

theorem matchSectionRem_length_lt {l r : List Char}
    (h : matchSectionRem l = some r) : r.length < l.length := by
  cases l with
  | nil => exact absurd h (by rw [matchSectionRem]; simp)
  | cons c rest =>
    rw [matchSectionRem] at h
    by_cases hc : c = '\\'
    · rw [if_pos hc] at h
      cases hml : matchLower sectionKeyword rest with
      | none => rw [hml] at h; exact absurd h (by simp)
      | some r1 =>
        rw [hml] at h
        have h1 := sectionAfterKeyword_length_lt h
        have h2 := matchLower_length_le sectionKeyword rest r1 hml
        simp only [List.length_cons]
        omega
    · rw [if_neg hc] at h; exact absurd h (by simp)

/-! ## Scan invariant: every recorded match is a real match of the text -/

/-- Invariant of the `finditer` scan: every recorded `(start, end)` pair lies
in bounds, is non-degenerate, really matches `SECTION_REGEX` at its start
position, and consecutive matches do not overlap. -/
theorem findSectionsAux_spec :
    ∀ (fuel : Nat) (cs : List Char) (i : Nat),
      (∀ m ∈ findSectionsAux fuel cs i,
        i ≤ m.1 ∧ m.1 < m.2 ∧ m.2 ≤ i + cs.length ∧
          ∃ r, matchSectionRem (cs.drop (m.1 - i)) = some r ∧
            m.2 - m.1 = (cs.drop (m.1 - i)).length - r.length) ∧
      List.Chain' (fun a b => a.2 ≤ b.1) (findSectionsAux fuel cs i) := by
  intro fuel
  induction fuel with
  | zero => intro cs i; rw [findSectionsAux]; simp
  | succ fuel ih =>
    intro cs i
    cases cs with
    | nil => rw [findSectionsAux]; simp
    | cons c rest =>
      cases hm : matchSectionRem (c :: rest) with
      | some r =>
        have hres : findSectionsAux (fuel + 1) (c :: rest) i =
            (i, i + ((c :: rest).length - r.length)) ::
              findSectionsAux fuel
                ((c :: rest).drop ((c :: rest).length - r.length))
                (i + ((c :: rest).length - r.length)) := by
          rw [findSectionsAux, hm]
        have hlt := matchSectionRem_length_lt hm
        set len := (c :: rest).length - r.length with hlendef
        have hlen1 : 1 ≤ len := by omega
        have hlenle : len ≤ (c :: rest).length := by omega
        have hsub := ih ((c :: rest).drop len) (i + len)
        rw [hres]
        constructor
        · intro m hmem
          rcases List.mem_cons.mp hmem with rfl | hms
          · refine ⟨Nat.le_refl i, by omega, by omega, r, ?_, ?_⟩
            · rw [Nat.sub_self, List.drop_zero]; exact hm
            · rw [Nat.sub_self, List.drop_zero]; omega
          · rcases hsub.1 m hms with ⟨h1, h2, h3, rr, h4, h5⟩
            have hdroplen : ((c :: rest).drop len).length =
                (c :: rest).length - len := List.length_drop _ _
            refine ⟨by omega, h2, by rw [hdroplen] at h3; omega, rr, ?_, ?_⟩
            · rw [List.drop_drop] at h4
              rw [show m.1 - i = len + (m.1 - (i + len)) from by omega]
              exact h4
            · rw [List.drop_drop] at h5
              rw [show m.1 - i = len + (m.1 - (i + len)) from by omega]
              exact h5
        · rw [List.chain'_cons']
          refine ⟨?_, hsub.2⟩
          intro b hb
          have hbm := List.mem_of_mem_head? hb
          exact (hsub.1 b hbm).1
      | none =>
        have hres : findSectionsAux (fuel + 1) (c :: rest) i =
            findSectionsAux fuel rest (i + 1) := by
          rw [findSectionsAux, hm]
        have hsub := ih rest (i + 1)
        rw [hres]
        constructor
        · intro m hmem
          rcases hsub.1 m hmem with ⟨h1, h2, h3, rr, h4, h5⟩
          have harith : m.1 - i = m.1 - (i + 1) + 1 := by omega
          refine ⟨by omega, h2, by simp only [List.length_cons]; omega, rr, ?_, ?_⟩
          · rw [harith, List.drop_succ_cons]; exact h4
          · rw [harith, List.drop_succ_cons]; exact h5
        · exact hsub.2

/-- Specialisation to `findSections`: bounds, real matches and the
non-overlap chain at scan origin 0. -/
theorem findSections_spec (cs : List Char) :
    (∀ m ∈ findSections cs,
      m.1 < m.2 ∧ m.2 ≤ cs.length ∧
        ∃ r, matchSectionRem (cs.drop m.1) = some r ∧
          m.2 - m.1 = (cs.drop m.1).length - r.length) ∧
    List.Chain' (fun a b => a.2 ≤ b.1) (findSections cs) := by
  have h := findSectionsAux_spec cs.length cs 0
  refine ⟨?_, h.2⟩
  intro m hm
  rcases h.1 m hm with ⟨_, h2, h3, r, h4, h5⟩
  rw [Nat.sub_zero] at h4 h5
  exact ⟨h2, by omega, r, h4, h5⟩

/-! ## Section spans -/

theorem sectionSpans_cons (m : Nat × Nat) (rest : List (Nat × Nat)) (total : Nat) :
    sectionSpans (m :: rest) total =
      (m.1, match rest with | m2 :: _ => m2.1 | [] => total) ::
        sectionSpans rest total := rfl

theorem sectionSpans_length (ms : List (Nat × Nat)) (total : Nat) :
    (sectionSpans ms total).length = ms.length := by
  induction ms with
  | nil => rfl
  | cons m rest ih => rw [sectionSpans_cons]; simp [ih]

/-- Every span starts at a recorded match start and is non-degenerate,
provided the matches are chained and end within the text. -/
theorem sectionSpans_spec :
    ∀ (ms : List (Nat × Nat)) (total : Nat),
      (∀ m ∈ ms, m.1 < m.2) →
      List.Chain' (fun a b => a.2 ≤ b.1) ms →
      (∀ m ∈ ms, m.2 ≤ total) →
      ∀ se ∈ sectionSpans ms total, (∃ m ∈ ms, se.1 = m.1) ∧ se.1 < se.2 := by
  intro ms
  induction ms with
  | nil => intro total _ _ _ se hse; exact absurd hse (by simp [sectionSpans])
  | cons m rest ih =>
    intro total hlt hchain hle se hse
    rw [sectionSpans_cons] at hse
    cases rest with
    | nil =>
      rcases List.mem_cons.mp hse with rfl | hst
      · refine ⟨⟨m, by simp, rfl⟩, ?_⟩
        show m.1 < total
        exact Nat.lt_of_lt_of_le (hlt m (by simp)) (hle m (by simp))
      · exact absurd hst (by simp [sectionSpans])
    | cons m2 rest2 =>
      rcases List.mem_cons.mp hse with rfl | hst
      · refine ⟨⟨m, by simp, rfl⟩, ?_⟩
        show m.1 < m2.1
        have hm2 : m.2 ≤ m2.1 := (List.chain'_cons.mp hchain).1
        exact Nat.lt_of_lt_of_le (hlt m (by simp)) hm2
      · have hrec := ih total (fun x hx => hlt x (List.mem_cons_of_mem m hx))
          (List.Chain'.tail hchain) (fun x hx => hle x (List.mem_cons_of_mem m hx))
          se hst
        exact ⟨⟨hrec.1.choose, List.mem_cons_of_mem m hrec.1.choose_spec.1,
          hrec.1.choose_spec.2⟩, hrec.2⟩

/-- Every SECTION-mode chunk starts with the backslash of its section
marker. -/
theorem sectionChunk_head (cs : List Char) :
    ∀ se ∈ sectionSpans (findSections cs) cs.length,
      ∃ t, (cs.drop se.1).take (se.2 - se.1) = '\\' :: t := by
  intro se hse
  have hspec := findSections_spec cs
  have hsp := sectionSpans_spec (findSections cs) cs.length
    (fun m hm => (hspec.1 m hm).1) hspec.2
    (fun m hm => (hspec.1 m hm).2.1) se hse
  rcases hsp.1 with ⟨m, hm, hse1⟩
  rcases (hspec.1 m hm).2.2 with ⟨r, hrem, _⟩
  rcases matchSectionRem_head hrem with ⟨t, hdrop⟩
  rw [← hse1] at hdrop
  rcases Nat.exists_eq_add_of_lt hsp.2 with ⟨k, hk⟩
  have hsub : se.2 - se.1 = k + 1 := by omega
  rw [hsub, hdrop, List.take_succ_cons]
  exact ⟨t.take k, rfl⟩

/-! ## findSub (str.find) lemmas -/

theorem findSubAux_zero (cs pat : List Char) (i : Nat) :
    findSubAux 0 cs pat i = if pat.isPrefixOf cs then some i else none := rfl

theorem findSubAux_succ (fuel : Nat) (cs pat : List Char) (i : Nat) :
    findSubAux (fuel + 1) cs pat i =
      if pat.isPrefixOf cs then some i
      else
        match cs with
        | [] => none
        | _ :: t => findSubAux fuel t pat (i + 1) := rfl

theorem findSubAux_found :
    ∀ (fuel : Nat) (cs pat : List Char) (i j : Nat),
      findSubAux fuel cs pat i = some j →
      i ≤ j ∧ pat.isPrefixOf (cs.drop (j - i)) = true := by
  intro fuel
  induction fuel with
  | zero =>
    intro cs pat i j h
    rw [findSubAux_zero] at h
    by_cases hp : pat.isPrefixOf cs = true
    · rw [if_pos hp] at h
      cases h
      exact ⟨Nat.le_refl _, by rw [Nat.sub_self, List.drop_zero]; exact hp⟩
    · rw [if_neg hp] at h; exact absurd h (by simp)
  | succ fuel ih =>
    intro cs pat i j h
    rw [findSubAux_succ] at h
    by_cases hp : pat.isPrefixOf cs = true
    · rw [if_pos hp] at h
      cases h
      exact ⟨Nat.le_refl _, by rw [Nat.sub_self, List.drop_zero]; exact hp⟩
    · rw [if_neg hp] at h
      cases cs with
      | nil => exact absurd h (by simp)
      | cons c t =>
        rcases ih t pat (i + 1) j h with ⟨h1, h2⟩
        refine ⟨by omega, ?_⟩
        rw [show j - i = j - (i + 1) + 1 by omega, List.drop_succ_cons]
        exact h2

theorem findSub_found {cs pat : List Char} {j : Nat} (h : findSub cs pat = some j) :
    pat.isPrefixOf (cs.drop j) = true := by
  have := findSubAux_found cs.length cs pat 0 j h
  rw [Nat.sub_zero] at this
  exact this.2

theorem afterMarker_eq (l : List Char) :
    afterMarker l =
      match findSub l DOCUMENT_START_MARKER.data with
      | some idx => l.drop idx
      | none => l := rfl

theorem isPrefixOf_exists_append :
    ∀ (p l : List Char), p.isPrefixOf l = true → ∃ t, l = p ++ t := by
  intro p
  induction p with
  | nil => intro l _; exact ⟨l, rfl⟩
  | cons a as ih =>
    intro l h
    cases l with
    | nil => exact absurd h (by simp [List.isPrefixOf])
    | cons b bs =>
      simp only [List.isPrefixOf, Bool.and_eq_true, beq_iff_eq] at h
      rcases ih bs h.2 with ⟨t, rfl⟩
      exact ⟨t, by rw [h.1]; rfl⟩

/-- The document-start marker begins with a backslash, so text that starts
at the marker contains a non-whitespace character. -/
theorem afterMarker_hasNS {l : List Char} (h : HasNS l) : HasNS (afterMarker l) := by
  cases hf : findSub l DOCUMENT_START_MARKER.data with
  | none => rw [afterMarker_eq, hf]; exact h
  | some idx =>
    rw [afterMarker_eq, hf]
    rcases isPrefixOf_exists_append _ _ (findSub_found hf) with ⟨suf, hsuf⟩
    refine ⟨'\\', ?_, by decide⟩
    show '\\' ∈ l.drop idx
    rw [hsuf]
    exact List.mem_append_left suf (by decide)

/-! ## C8: SECTION mode with no section markers -/

/-- C8: for every text passing the length validation whose post-marker body
contains no `SECTION_REGEX` match, SECTION mode returns exactly one chunk:
the cleaned/trimmed body (everything before the document-start marker having
been discarded when the marker is present). -/
theorem c8_section_fallback_single_chunk (latex : String)
    (hv : validate_text_length latex MIN_CHUNK_SIZE MAX_CHUNK_SIZE = .ok ())
    (hm : findSections (afterMarker latex.data) = []) :
    split_by_section latex = .ok [clean_chunk ⟨afterMarker latex.data⟩] := by
  simp [split_by_section, hv, hm]

/-- Witness for C8 on a concrete marker-free, section-free text. -/
theorem c8_section_fallback_single_chunk_witness :
    split_by_section "hello world junk" = .ok ["hello world junk"] := by
  have h := c8_section_fallback_single_chunk "hello world junk" (by decide) (by decide)
  rw [h]
  decide

/-! ## C6: chunk non-emptiness -/

/-- C6 counterexample: a valid input on which the external LangChain splitter
returns no segments makes `split_by_splitter` return the empty chunk
sequence — the whole-trimmed-input fallback exists only in SECTION mode. -/
theorem c6_counterexample_splitter_returns_empty :
    validate_text_length "abcdefghij" MIN_CHUNK_SIZE MAX_CHUNK_SIZE = .ok () ∧
    split_by_splitter (fun _ => []) "abcdefghij" = .ok [] := by
  exact ⟨by decide, by decide⟩

/-- C6 (amended): every chunk either engine returns is non-empty and remains
non-empty after trimming; `split_by_splitter` returns a non-empty sequence
whenever the external splitter yields at least one segment with
non-whitespace content (but has no fallback of its own); `split_by_section`
always returns a non-empty sequence. -/
theorem c6_amended_chunk_nonemptiness :
    (∀ (splitText : String → List String) (latex : String) (cs : List String),
      split_by_splitter splitText latex = .ok cs →
        ∀ c ∈ cs, c ≠ "" ∧ pyStripStr c ≠ "") ∧
    (∀ (splitText : String → List String) (latex : String) (cs : List String),
      split_by_splitter splitText latex = .ok cs →
      (∃ seg ∈ splitText latex, (pyStrip seg.data).isEmpty = false) → cs ≠ []) ∧
    (∀ (latex : String) (cs : List String),
      split_by_section latex = .ok cs →
        cs ≠ [] ∧ ∀ c ∈ cs, c ≠ "" ∧ pyStripStr c ≠ "") := by
  refine ⟨?_, ?_, ?_⟩
  · intro splitText latex cs h c hc
    cases hval : validate_text_length latex MIN_CHUNK_SIZE MAX_CHUNK_SIZE with
    | error e =>
      rw [split_by_splitter, hval] at h
      exact Except.noConfusion h
    | ok u =>
      cases u
      rw [split_by_splitter, hval] at h
      injection h with h
      rw [← h] at hc
      rcases List.mem_map.mp hc with ⟨ch, hchmem, rfl⟩
      have hp := (List.mem_filter.mp hchmem).2
      apply clean_chunk_ne_of_hasNS
      apply hasNS_of_pyStrip_ne_nil
      intro hnil
      rw [hnil] at hp
      exact Bool.false_ne_true hp
  · intro splitText latex cs h hseg
    cases hval : validate_text_length latex MIN_CHUNK_SIZE MAX_CHUNK_SIZE with
    | error e =>
      rw [split_by_splitter, hval] at h
      exact Except.noConfusion h
    | ok u =>
      cases u
      rw [split_by_splitter, hval] at h
      injection h with h
      rcases hseg with ⟨seg, hmem, hpe⟩
      have hsegf : seg ∈ (splitText latex).filter fun x => !(pyStrip x.data).isEmpty :=
        List.mem_filter.mpr ⟨hmem, by rw [hpe]; rfl⟩
      intro hnil
      rw [← h] at hnil
      rw [List.map_eq_nil_iff] at hnil
      rw [hnil] at hsegf
      exact absurd hsegf (List.not_mem_nil seg)
  · intro latex cs h
    cases hval : validate_text_length latex MIN_CHUNK_SIZE MAX_CHUNK_SIZE with
    | error e =>
      rw [split_by_section, hval] at h
      exact Except.noConfusion h
    | ok u =>
      cases u
      simp only [split_by_section, hval] at h
      cases hms : findSections (afterMarker latex.data) with
      | nil =>
        rw [hms] at h
        simp only [List.isEmpty_nil, if_true] at h
        injection h with h
        have hns : HasNS (afterMarker latex.data) :=
          afterMarker_hasNS (validate_ok_hasNS hval)
        have hclean := clean_chunk_ne_of_hasNS (s := ⟨afterMarker latex.data⟩) hns
        constructor
        · rw [← h]; simp
        · intro c hc
          rw [← h] at hc
          rcases List.mem_singleton.mp hc with rfl
          exact hclean
      | cons m ms2 =>
        rw [hms] at h
        simp only [List.isEmpty_cons, if_false, Bool.false_eq_true] at h
        injection h with h
        have hhead := sectionChunk_head (afterMarker latex.data)
        rw [hms] at hhead
        have hall : ∀ se ∈ sectionSpans (m :: ms2) (afterMarker latex.data).length,
            clean_chunk ⟨((afterMarker latex.data).drop se.1).take (se.2 - se.1)⟩ ≠ "" ∧
            pyStripStr
              (clean_chunk ⟨((afterMarker latex.data).drop se.1).take (se.2 - se.1)⟩)
              ≠ "" := by
          intro se hse
          rcases hhead se hse with ⟨t, hchunk⟩
          apply clean_chunk_ne_of_hasNS
          show HasNS (((afterMarker latex.data).drop se.1).take (se.2 - se.1))
          rw [hchunk]
          exact ⟨'\\', by simp, by decide⟩
        constructor
        · intro hnil
          have hspne : sectionSpans (m :: ms2) (afterMarker latex.data).length ≠ [] := by
            rw [sectionSpans_cons]
            simp
          rcases List.exists_mem_of_ne_nil _ hspne with ⟨se0, hse0⟩
          have hcl := hall se0 hse0
          have hmem0 : clean_chunk
              ⟨((afterMarker latex.data).drop se0.1).take (se0.2 - se0.1)⟩ ∈
              ((sectionSpans (m :: ms2) (afterMarker latex.data).length).map fun se =>
                clean_chunk
                  ⟨((afterMarker latex.data).drop se.1).take (se.2 - se.1)⟩).filter
                fun c => c ≠ "" := by
            apply List.mem_filter.mpr
            constructor
            · exact List.mem_map.mpr ⟨se0, hse0, rfl⟩
            · simp only [decide_eq_true_eq]
              exact hcl.1
          rw [h, hnil] at hmem0
          exact absurd hmem0 (List.not_mem_nil _)
        · intro c hc
          rw [← h] at hc
          have hcmap := (List.mem_filter.mp hc).1
          rcases List.mem_map.mp hcmap with ⟨se, hse, rfl⟩
          exact hall se hse

/-- Witness for the amended C6 at concrete inputs for all three parts. -/
theorem c6_amended_chunk_nonemptiness_witness :
    (∀ c ∈ ["abcdefghij"], c ≠ "" ∧ pyStripStr c ≠ "") ∧
    (["abcdefghij"] : List String) ≠ [] := by
  have h1 := c6_amended_chunk_nonemptiness.1 (fun s => [s]) "abcdefghij"
    ["abcdefghij"] (by decide)
  have h2 := c6_amended_chunk_nonemptiness.2.1 (fun s => [s]) "abcdefghij"
    ["abcdefghij"] (by decide) ⟨"abcdefghij", by decide, by decide⟩
  have h3 := c6_amended_chunk_nonemptiness.2.2 "hello world junk"
    ["hello world junk"] (by decide)
  exact ⟨h1, h2⟩

end ProofreadCore
